import Mathlib

/-!
Verification of the mev-bot pipeline (mempool listener, Redis cache discipline,
and the Anvil bundle simulator) against its natural-language specification.

The embedding below is a shallow model of the TypeScript sources:

* `src/unnamed/part_002` — the `MempoolListener` class (pending-transaction
  handler, calldata decoder, Redis store, periodic cleanup);
* `src/services/strategy-engine-ts/src/bundle-simulator.ts` — the
  `BundleSimulator` class (`simulateBundle`, `resetFork`);
* `src/unnamed/part_003` — the legacy `BundleSimulator` variant (its
  `resetFork` passes positional arguments);
* `src/unnamed/part_001` — the `constants.ts` configuration module.

Modelling conventions: 20-byte addresses and 32-byte transaction hashes are
opaque `Nat` identifiers (the sources only compare them for equality after
lowercasing); 256-bit EVM words are `Nat` reduced `% 2 ^ 256` where a value is
written into calldata; JavaScript `bigint` arithmetic is exact `Int`/`Nat`
arithmetic; JavaScript `Set` is `Finset Nat`; the Redis store is an
association list keyed by a structured key type mirroring the `mev:`-scoped
key strings the listener builds.  I/O (provider calls, receipts, fee data) is
passed in as explicit oracle arguments, so every function is executable.
-/

namespace MevBot

/-- Decoded swap metadata — the `DecodedCall` interface of the listener
(`part_002`, lines 21-31).  Optional fields are absent exactly when the
JavaScript object leaves them `undefined`. -/
structure DecodedCall where
  contractAddress : Nat
  functionName : String
  isSwap : Bool
  amountIn : Option Nat
  amountOut : Option Nat
  path : Option (List Nat)
  tokenIn : Option Nat
  tokenOut : Option Nat
deriving DecidableEq, Repr

/-- ABI calldata: the 4-byte function selector followed by the sequence of
32-byte argument words. -/
structure Calldata where
  selector : Nat
  words : List Nat
deriving DecidableEq, Repr

/-- The three router addresses registered in `initializeDexInterfaces`
(`part_002`, lines 53-67): TraderJoe V1, Pangolin, SushiSwap. -/
def knownRouters : List Nat :=
  [0x60aE616a2155Ee3d9A68541Ba4544862310933d4,
   0xE54Ca86531e17Ef3616d22Ca28b0D458b6C89106,
   0x1b02dA8Cb0d097eB8D57A175b88c7D8b47997506]

/-- Standard ABI decoding of an argument tuple
`(uint256, uint256, address[], address, uint256)` — the layout shared by
`swapExactTokensForTokens` and `swapTokensForExactTokens` in the router ABI
(`part_001`, lines 86-87).  The three static head words are read at positions
0, 1, 3, 4; position 2 holds the byte offset of the dynamic array, whose
length word is followed by its elements. -/
def decodeSwapArgs (ws : List Nat) : Option (Nat × Nat × List Nat × Nat × Nat) :=
  match ws.get? 0, ws.get? 1, ws.get? 2, ws.get? 3, ws.get? 4 with
  | some a, some b, some off, some toA, some dl =>
    if off % 32 = 0 then
      match ws.get? (off / 32) with
      | some len =>
        if off / 32 + 1 + len ≤ ws.length then
          some (a, b, (ws.drop (off / 32 + 1)).take len, toA, dl)
        else none
      | none => none
    else none
  | _, _, _, _, _ => none

/-- ABI encoding of `swapExactTokensForTokens(a, b, path, to, dl)` against the
canonical UniswapV2-style router ABI: selector `0x38ed1739`, three static
words, the array offset `5 · 32 = 160`, then the array length and elements. -/
def encodeSwapExactTokensForTokens (a b : Nat) (path : List Nat) (toA dl : Nat) :
    Calldata :=
  { selector := 0x38ed1739
    words := [a % 2 ^ 256, b % 2 ^ 256, 160, toA % 2 ^ 256, dl % 2 ^ 256, path.length]
      ++ path.map (fun x => x % 2 ^ 256) }

/-- `decodeTransaction` (`part_002`, lines 188-227): parse the calldata against
the router interface; on a parsed function whose name contains `swap`, set
`isSwap` and, for the two token-for-token selectors, extract `amountIn` /
`amountOut`, `path`, `tokenIn = path[0]`, `tokenOut = path[path.length - 1]`
(a JavaScript out-of-range index yields `undefined`, i.e. `none`).  Router ABI
fragments other than the two token-for-token swaps carry no extraction logic
in the source and are modelled as parse misses; parse failures return
`undefined`. -/
def decodeTransaction (contractAddress : Nat) (data : Calldata) : Option DecodedCall :=
  if contractAddress ∈ knownRouters then
    if data.selector = 0x38ed1739 then
      match decodeSwapArgs data.words with
      | some (a, _b, path, _toA, _dl) =>
        some { contractAddress := contractAddress
               functionName := "swapExactTokensForTokens"
               isSwap := true
               amountIn := some a
               amountOut := none
               path := some path
               tokenIn := path.get? 0
               tokenOut := path.get? (path.length - 1) }
      | none => none
    else if data.selector = 0x8803dbee then
      match decodeSwapArgs data.words with
      | some (a, _b, path, _toA, _dl) =>
        some { contractAddress := contractAddress
               functionName := "swapTokensForExactTokens"
               isSwap := true
               amountIn := none
               amountOut := some a
               path := some path
               tokenIn := path.get? 0
               tokenOut := path.get? (path.length - 1) }
      | none => none
    else none
  else none

/-- A transaction as returned by `provider.getTransaction` — the fields of
`ethers.TransactionResponse` that the listener reads. -/
structure FetchedTx where
  sender : Nat
  toAddr : Option Nat
  value : Nat
  nonce : Nat
  data : Calldata
deriving DecidableEq, Repr

/-- The `EnrichedTransaction` record (`part_002`, lines 5-19); string-rendered
numeric fields are kept as the underlying numbers. -/
structure EnrichedTx where
  hash : Nat
  sender : Nat
  toAddr : Option Nat
  value : Nat
  nonce : Nat
  decodedCall : Option DecodedCall
deriving DecidableEq, Repr

/-- `enrichTransaction` (`part_002`, lines 164-186): copy the transaction
fields and attach a decoded call exactly when `to` is a registered router. -/
def enrichTransaction (h : Nat) (f : FetchedTx) : EnrichedTx :=
  { hash := h
    sender := f.sender
    toAddr := f.toAddr
    value := f.value
    nonce := f.nonce
    decodedCall :=
      match f.toAddr with
      | some a => if a ∈ knownRouters then decodeTransaction a f.data else none
      | none => none }

/-- The `mev:`-scoped Redis keys the listener writes (`MEV_CONFIG`
`REDIS_KEY_PRE` ++ `FIX` is the string `mev:`): `tx h` is `mev:tx:<hash>`,
`swaps h` is `mev:swaps:<hash>`, `swapQueue` is `mev:swap_queue`; `unscoped n`
stands for any key outside the `mev:` namespace. -/
inductive CacheKey where
  | tx (h : Nat)
  | swaps (h : Nat)
  | swapQueue
  | unscoped (n : Nat)
deriving DecidableEq, Repr

/-- A Redis value: either a stored (JSON-serialised) enriched transaction or a
list of hashes.  Serialisation is modelled as the identity embedding. -/
inductive EntryData where
  | txVal (t : EnrichedTx)
  | listVal (xs : List Nat)
deriving DecidableEq, Repr

/-- A Redis entry together with its expiry: `ttl = none` means no expiry was
ever set (Redis `TTL` answers `-1`), `ttl = some t` a pending expiry of `t`
seconds. -/
structure CacheEntry where
  data : EntryData
  ttl : Option Nat
deriving DecidableEq, Repr

/-- The Redis keyspace, as an association list (newest binding first; writing
a key removes the older binding). -/
abbrev CacheState := List (CacheKey × CacheEntry)

/-- Look a key up in the store (first, i.e. newest, binding wins). -/
def lookupKey : CacheState → CacheKey → Option CacheEntry
  | [], _ => none
  | p :: rest, k => if p.1 = k then some p.2 else lookupKey rest k

/-- Bind a key to an entry, dropping any previous binding. -/
def setKeyEntry (st : CacheState) (k : CacheKey) (e : CacheEntry) : CacheState :=
  (k, e) :: st.filter (fun p => decide (p.1 ≠ k))

/-- Redis `SETEX`: store a value with an expiry. -/
def setEx (st : CacheState) (k : CacheKey) (ttl : Nat) (v : EntryData) : CacheState :=
  setKeyEntry st k { data := v, ttl := some ttl }

/-- Redis `LPUSH`: prepend to the list at `k`, keeping its expiry; a missing
key becomes a fresh one-element list with no expiry set. -/
def lPush (st : CacheState) (k : CacheKey) (x : Nat) : CacheState :=
  match lookupKey st k with
  | some ⟨EntryData.listVal xs, t⟩ =>
      setKeyEntry st k { data := EntryData.listVal (x :: xs), ttl := t }
  | _ => setKeyEntry st k { data := EntryData.listVal [x], ttl := none }

/-- Redis `LTRIM` with non-negative bounds: keep positions `a..b` of the list
at `k` (the listener only ever calls it as `LTRIM 0 999`). -/
def lTrim (st : CacheState) (k : CacheKey) (a b : Nat) : CacheState :=
  match lookupKey st k with
  | some ⟨EntryData.listVal xs, t⟩ =>
      setKeyEntry st k { data := EntryData.listVal ((xs.drop a).take (b - a + 1)), ttl := t }
  | _ => st

/-- Redis `TTL`: `-2` for a missing key, `-1` for a key with no expiry,
otherwise the remaining seconds. -/
def ttlOf (st : CacheState) (k : CacheKey) : Int :=
  match lookupKey st k with
  | none => -2
  | some e =>
    match e.ttl with
    | none => -1
    | some t => (t : Int)

/-- Redis `DEL`. -/
def delKey (st : CacheState) (k : CacheKey) : CacheState :=
  st.filter (fun p => decide (p.1 ≠ k))

/-- Whether a key matches the `KEYS mev:*` scan pattern used by the cleanup
loop. -/
def isMevKey : CacheKey → Bool
  | CacheKey.unscoped _ => false
  | _ => true

/-- `MEV_CONFIG.MEMPOOL_TTL` (`part_001`, line 67): 300 seconds. -/
def MEMPOOL_TTL : Nat := 300

/-- Whether the enriched transaction carries a decoded swap —
`tx.decodedCall?.isSwap` with JavaScript optional chaining. -/
def isSwapTx (t : EnrichedTx) : Bool :=
  match t.decodedCall with
  | some dc => dc.isSwap
  | none => false

/-- `storeTransaction` (`part_002`, lines 229-266): `SETEX mev:tx:<hash>` with
the mempool TTL; when a decoded swap is present, additionally
`SETEX mev:swaps:<hash>` with the same TTL, `LPUSH mev:swap_queue <hash>`, and
`LTRIM mev:swap_queue 0 999`. -/
def storeTransaction (st : CacheState) (t : EnrichedTx) : CacheState :=
  let st1 := setEx st (CacheKey.tx t.hash) MEMPOOL_TTL (EntryData.txVal t)
  if isSwapTx t then
    let st2 := setEx st1 (CacheKey.swaps t.hash) MEMPOOL_TTL (EntryData.txVal t)
    let st3 := lPush st2 CacheKey.swapQueue t.hash
    lTrim st3 CacheKey.swapQueue 0 999
  else st1

/-- One iteration of the cleanup loop body (`part_002`, lines 276-282): read
the key's `TTL` and delete the key when the answer is `-1` or non-positive. -/
def cleanupStep (acc : CacheState) (k : CacheKey) : CacheState :=
  let t := ttlOf acc k
  if t = -1 ∨ t ≤ 0 then delKey acc k else acc

/-- `cleanupOldEntries` (`part_002`, lines 268-289): scan every key under the
`mev:` namespace and run the delete-if-expired body on each. -/
def cleanupOldEntries (st : CacheState) : CacheState :=
  ((st.map (fun p => p.1)).filter isMevKey).foldl cleanupStep st

/-- The current contents of the `mev:swap_queue` list (empty when the key is
absent or holds a non-list value). -/
def queueOf (st : CacheState) : List Nat :=
  match lookupKey st CacheKey.swapQueue with
  | some ⟨EntryData.listVal xs, _⟩ => xs
  | _ => []

/-- Observable actions of one `handlePendingTransaction` invocation: a
`getTransaction` RPC round trip, a `storeTransaction` cache write batch for a
hash, and a wholesale clear of the dedup set. -/
inductive MEvent where
  | fetch (h : Nat)
  | storeTx (h : Nat)
  | clearSeen
deriving DecidableEq, Repr

/-- The listener's mutable state: the in-memory `seenTxs` dedup set and the
Redis store it writes through. -/
structure ListenerState where
  seen : Finset Nat
  cache : CacheState

/-- `handlePendingTransaction` (`part_002`, lines 121-162) for one delivered
hash.  `fetched` is what `provider.getTransaction` returns for that hash.
Order as in the source: early-reject on the dedup set; fetch (dropping the
hash silently when the lookup misses); mark seen; enrich; store; finally
clear the dedup set wholesale when its size exceeds 10 000. -/
def handlePendingTransaction (st : ListenerState) (h : Nat) (fetched : Option FetchedTx) :
    ListenerState × List MEvent :=
  if h ∈ st.seen then (st, [])
  else
    match fetched with
    | none => (st, [MEvent.fetch h])
    | some f =>
      let seen1 := insert h st.seen
      let etx := enrichTransaction h f
      let cache1 := storeTransaction st.cache etx
      if 10000 < seen1.card then
        ({ seen := ∅, cache := cache1 }, [MEvent.fetch h, MEvent.storeTx h, MEvent.clearSeen])
      else
        ({ seen := seen1, cache := cache1 }, [MEvent.fetch h, MEvent.storeTx h])

/-- Run the pending-transaction handler over a delivered sequence of
(hash, lookup result) events, accumulating the observable actions. -/
def runListener (st : ListenerState) : List (Nat × Option FetchedTx) → ListenerState × List MEvent
  | [] => (st, [])
  | (h, f) :: rest =>
    let r1 := handlePendingTransaction st h f
    let r2 := runListener r1.1 rest
    (r2.1, r1.2 ++ r2.2)

/-- A transaction request inside a bundle (`ethers.TransactionRequest`, the
fields `simulateBundle` reads).  `value = none` models an absent (or falsy)
`value`; the arithmetic treats `some 0` and `none` identically, as the
JavaScript truthiness test does. -/
structure TxRequest where
  toAddr : Option Nat
  value : Option Nat
  gasLimit : Option Nat
  data : Option Calldata
deriving DecidableEq, Repr

/-- The `TransactionBundle` interface (`bundle-simulator.ts`, lines 14-18);
`expectedProfit` is a decimal wei string in the source, kept as the number it
denotes (the empty string and `"0"` both denote 0). -/
structure TransactionBundle where
  transactions : List TxRequest
  expectedProfit : Nat
  description : String
deriving DecidableEq, Repr

/-- A transaction receipt as observed by `txResponse.wait()`. -/
structure SimReceipt where
  status : Nat
  gasUsed : Nat
deriving DecidableEq, Repr

/-- What the sandbox answers during one loop iteration of `simulateBundle`:
the `gasPrice` field of `getFeeData()` (absent when the fee data carries
none) and the receipt `wait()` resolves to (absent on a dropped
transaction). -/
structure SimStep where
  feeGasPrice : Option Nat
  receipt : Option SimReceipt
deriving DecidableEq, Repr

/-- The sandbox oracle: per transaction index, the fee data and receipt the
provider produces. -/
abbrev SimEnv := Nat → SimStep

/-- `MEV_CONFIG.GAS_LIMIT` (`part_001`, line 64). -/
def GAS_LIMIT : Nat := 500000

/-- `MEV_CONFIG.FAST_SIMULATION` (`part_001`, line 69), the default
`fastMode`. -/
def FAST_SIMULATION : Bool := true

/-- `feeData.gasPrice || ethers.parseUnits("25", "gwei")`
(`bundle-simulator.ts`, line 171): a missing or zero (falsy) fee-data gas
price falls back to 25 gwei = 25 000 000 000 wei. -/
def gasPriceFor (s : SimStep) : Nat :=
  match s.feeGasPrice with
  | some g => if g = 0 then 25000000000 else g
  | none => 25000000000

/-- `tx.gasLimit || MEV_CONFIG.GAS_LIMIT` (`bundle-simulator.ts`, line 179). -/
def txGasLimit (t : TxRequest) : Nat :=
  match t.gasLimit with
  | some g => if g = 0 then GAS_LIMIT else g
  | none => GAS_LIMIT

/-- The overrides `testWallet.sendTransaction` is called with
(`bundle-simulator.ts`, lines 176-181): explicit nonce, resolved gas limit,
resolved gas price, plus the request's own payload fields. -/
structure SentTx where
  nonce : Nat
  gasPrice : Nat
  gasLimit : Nat
  toAddr : Option Nat
  value : Option Nat
deriving DecidableEq, Repr

/-- The transaction loop of `simulateBundle` (`bundle-simulator.ts`, lines
164-201), started at index `i`: broadcast each request with nonce
`nonce0 + i` and the resolved gas price, wait for its receipt, abort with the
thrown message on a missing receipt or `status = 0`, and otherwise accumulate
`gasUsed` and `gasUsed · gasPrice`.  Returns the broadcast transactions in
order together with either the thrown error or
`(totalGasUsed, totalGasCost)`. -/
def runBundleLoop (env : SimEnv) (nonce0 : Nat) :
    List TxRequest → Nat → List SentTx × Except String (Nat × Nat)
  | [], _ => ([], Except.ok (0, 0))
  | t :: rest, i =>
    let st := env i
    let gp := gasPriceFor st
    let sent : SentTx :=
      { nonce := nonce0 + i, gasPrice := gp, gasLimit := txGasLimit t
        toAddr := t.toAddr, value := t.value }
    match st.receipt with
    | none =>
      ([sent], Except.error ("Transaction " ++ toString (i + 1) ++ " failed - no receipt"))
    | some r =>
      if r.status = 0 then
        ([sent], Except.error ("Transaction " ++ toString (i + 1) ++ " reverted"))
      else
        let res := runBundleLoop env nonce0 rest (i + 1)
        (sent :: res.1,
          match res.2 with
          | Except.ok (g, c) => Except.ok (r.gasUsed + g, r.gasUsed * gp + c)
          | Except.error e => Except.error e)

/-- The `SimulationResult` interface (`bundle-simulator.ts`, lines 6-12);
`profit` is the signed wei amount whose decimal rendering the source stores,
and the wall-clock `executionTime` is not modelled. -/
structure SimulationResult where
  success : Bool
  gasUsed : Nat
  profit : Int
  errorMsg : Option String
deriving DecidableEq, Repr

/-- The fast-mode profit computation (`bundle-simulator.ts`, lines 205-223),
in source order: start from the negated total gas cost, subtract every
attached transaction value, then add the bundle's expected profit when it is
non-zero (adding zero otherwise would be the same). -/
def fastProfit (bundle : TransactionBundle) (totalGasCost : Nat) : Int :=
  let p0 : Int := 0 - (totalGasCost : Int)
  let p1 := bundle.transactions.foldl
    (fun acc t =>
      match t.value with
      | some v => acc - (v : Int)
      | none => acc) p0
  if bundle.expectedProfit ≠ 0 then p1 + (bundle.expectedProfit : Int) else p1

/-- `simulateBundle` (`bundle-simulator.ts`, lines 137-258), given an
initialized simulation provider.  `nonce0` is the wallet transaction count
read once at bundle start; `initialBalance` / `finalBalance` are the balance
reads used by precise mode.  Any abort inside the loop is caught and turned
into a `success := false` result with `gasUsed := 0`, `profit := "0"` and the
thrown message; otherwise the result reports the accumulated gas and the
fast- or precise-mode profit.  Also returns the list of broadcast
transactions for inspection. -/
def simulateBundle (env : SimEnv) (nonce0 initialBalance finalBalance : Nat)
    (fastMode : Bool) (bundle : TransactionBundle) :
    SimulationResult × List SentTx :=
  let res := runBundleLoop env nonce0 bundle.transactions 0
  match res.2 with
  | Except.error e =>
    ({ success := false, gasUsed := 0, profit := 0, errorMsg := some e }, res.1)
  | Except.ok (tg, tc) =>
    let profit : Int :=
      if fastMode then fastProfit bundle tc
      else (finalBalance : Int) - (initialBalance : Int)
    ({ success := true, gasUsed := tg, profit := profit, errorMsg := none }, res.1)

/-- Specification-side per-transaction gas cost: `gas_used · gas_price` of the
receipt at index `k` (zero when there is no receipt). -/
def costAt (env : SimEnv) (k : Nat) : Nat :=
  match (env k).receipt with
  | some r => r.gasUsed * gasPriceFor (env k)
  | none => 0

/-- Specification-side sum `Σ_{j < n} costAt (i + j)`. -/
def sumCostFrom (env : SimEnv) : Nat → Nat → Nat
  | _, 0 => 0
  | i, n + 1 => costAt env i + sumCostFrom env (i + 1) n

/-- Specification-side per-transaction gas usage: the `gasUsed` of the receipt
at index `k` (zero when there is no receipt). -/
def usedAt (env : SimEnv) (k : Nat) : Nat :=
  match (env k).receipt with
  | some r => r.gasUsed
  | none => 0

/-- Specification-side sum `Σ_{j < n} usedAt (i + j)`. -/
def sumUsedFrom (env : SimEnv) : Nat → Nat → Nat
  | _, 0 => 0
  | i, n + 1 => usedAt env i + sumUsedFrom env (i + 1) n

/-- Specification-side sum of the native-token values attached to the
bundle's transactions. -/
def sumValues (txs : List TxRequest) : Nat :=
  (txs.map (fun t => t.value.getD 0)).sum

/-- Receipt at index `k` arrived and did not revert. -/
def okAt (env : SimEnv) (k : Nat) : Prop :=
  ∃ r, (env k).receipt = some r ∧ r.status ≠ 0

/-- Receipt at index `k` is missing or reverted. -/
def failAt (env : SimEnv) (k : Nat) : Prop :=
  (env k).receipt = none ∨ ∃ r, (env k).receipt = some r ∧ r.status = 0

/-- A JSON-RPC parameter as sent to the sandbox: a plain string, a number, an
address, or the `{forking: {jsonRpcUrl, blockNumber}}` object shape. -/
inductive RpcParam where
  | str (s : String)
  | num (n : Int)
  | addr (a : Nat)
  | forkingObj (jsonRpcUrl : String) (blockNumber : Int)
deriving DecidableEq, Repr

/-- One `provider.send(method, params)` administrative call. -/
structure RpcCall where
  method : String
  params : List RpcParam
deriving DecidableEq, Repr

/-- `CURRENT_NETWORK.rpcUrl` (`part_001`, lines 2-16): the mainnet RPC URL. -/
def mainnetRpcUrl : String := "http://127.0.0.1:9650/ext/bc/C/rpc"

/-- The default anvil account re-funded by `resetFork`
(`bundle-simulator.ts`, line 798). -/
def defaultAnvilAccount : Nat := 0xf39Fd6e51aad88F6F4ce6aB8827279cffFb92266

/-- `resetFork` of the current simulator (`bundle-simulator.ts`, lines
778-801), as the sequence of administrative calls it sends for a given head
block: `anvil_reset` with the single `{forking: {jsonRpcUrl, blockNumber:
head - 2}}` object, then `anvil_setBalance` re-funding the default account to
`parseEther("1000000")` = 10^24 wei (the configured per-account launch
balance). -/
def resetForkCalls (latestBlock : Nat) : List RpcCall :=
  [{ method := "anvil_reset"
     params := [RpcParam.forkingObj mainnetRpcUrl ((latestBlock : Int) - 2)] },
   { method := "anvil_setBalance"
     params := [RpcParam.addr defaultAnvilAccount, RpcParam.num ((10 : Int) ^ 24)] }]

/-- `resetFork` of the legacy simulator (`part_003`, lines 425-443): a single
`anvil_reset` with two positional parameters — the fork URL string and the
block number — and no re-funding call. -/
def resetForkCallsLegacy (latestBlock : Nat) : List RpcCall :=
  [{ method := "anvil_reset"
     params := [RpcParam.str mainnetRpcUrl, RpcParam.num ((latestBlock : Int) - 2)] }]

/-! ### Properties of the cache operations -/

theorem lookupKey_setKeyEntry_self (st : CacheState) (k : CacheKey) (e : CacheEntry) :
    lookupKey (setKeyEntry st k e) k = some e := by
  simp [lookupKey, setKeyEntry]

theorem lookupKey_filter_ne (st : CacheState) (k k' : CacheKey) (h : k' ≠ k) :
    lookupKey (st.filter (fun p => decide (p.1 ≠ k))) k' = lookupKey st k' := by
  induction st with
  | nil => rfl
  | cons a rest ih =>
    by_cases hk : a.1 = k
    · have hne : a.1 ≠ k' := by rw [hk]; exact fun hh => h hh.symm
      rw [List.filter_cons_of_neg (by simp [hk]), ih]
      simp [lookupKey, hne]
    · rw [List.filter_cons_of_pos (by simp [hk])]
      by_cases hk' : a.1 = k'
      · simp [lookupKey, hk']
      · simp only [lookupKey, if_neg hk']
        exact ih

theorem lookupKey_setKeyEntry_ne (st : CacheState) (k k' : CacheKey) (e : CacheEntry)
    (h : k' ≠ k) : lookupKey (setKeyEntry st k e) k' = lookupKey st k' := by
  have hne : k ≠ k' := fun hh => h hh.symm
  simp only [setKeyEntry, lookupKey, hne, if_false]
  exact lookupKey_filter_ne st k k' h

theorem lookupKey_delKey_self (st : CacheState) (k : CacheKey) :
    lookupKey (delKey st k) k = none := by
  induction st with
  | nil => rfl
  | cons a rest ih =>
    unfold delKey at ih ⊢
    by_cases hk : a.1 = k
    · rw [List.filter_cons_of_neg (by simp [hk])]
      exact ih
    · rw [List.filter_cons_of_pos (by simp [hk])]
      simp only [lookupKey, if_neg hk]
      exact ih

theorem lookupKey_delKey_ne (st : CacheState) (k k' : CacheKey) (h : k' ≠ k) :
    lookupKey (delKey st k) k' = lookupKey st k' := by
  unfold delKey
  exact lookupKey_filter_ne st k k' h

theorem lookupKey_lPush_ne (st : CacheState) (k k' : CacheKey) (x : Nat) (h : k' ≠ k) :
    lookupKey (lPush st k x) k' = lookupKey st k' := by
  unfold lPush
  split <;> rw [lookupKey_setKeyEntry_ne _ _ _ _ h]

theorem lookupKey_lTrim_ne (st : CacheState) (k k' : CacheKey) (a b : Nat) (h : k' ≠ k) :
    lookupKey (lTrim st k a b) k' = lookupKey st k' := by
  unfold lTrim
  split
  · rw [lookupKey_setKeyEntry_ne _ _ _ _ h]
  · rfl

theorem queueOf_lPush (st : CacheState) (x : Nat) :
    queueOf (lPush st CacheKey.swapQueue x) = x :: queueOf st := by
  rcases hl : lookupKey st CacheKey.swapQueue with _ | ⟨d, tt⟩
  · simp [queueOf, lPush, hl, lookupKey_setKeyEntry_self]
  · cases d <;> simp [queueOf, lPush, hl, lookupKey_setKeyEntry_self]

theorem queueOf_lTrim (st : CacheState) :
    queueOf (lTrim st CacheKey.swapQueue 0 999) = (queueOf st).take 1000 := by
  rcases hl : lookupKey st CacheKey.swapQueue with _ | ⟨d, tt⟩
  · simp [queueOf, lTrim, hl]
  · cases d <;> simp [queueOf, lTrim, hl, lookupKey_setKeyEntry_self]

theorem lPush_fresh (st : CacheState) (x : Nat)
    (h : lookupKey st CacheKey.swapQueue = none) :
    lookupKey (lPush st CacheKey.swapQueue x) CacheKey.swapQueue =
      some ⟨EntryData.listVal [x], none⟩ := by
  simp [lPush, h, lookupKey_setKeyEntry_self]

theorem lTrim_keeps_ttl (st : CacheState) (xs : List Nat) (tt : Option Nat)
    (h : lookupKey st CacheKey.swapQueue = some ⟨EntryData.listVal xs, tt⟩) :
    lookupKey (lTrim st CacheKey.swapQueue 0 999) CacheKey.swapQueue =
      some ⟨EntryData.listVal (xs.take 1000), tt⟩ := by
  simp [lTrim, h, lookupKey_setKeyEntry_self]

theorem lookupKey_some_mem (st : CacheState) (k : CacheKey) (e : CacheEntry)
    (h : lookupKey st k = some e) : k ∈ st.map (fun p => p.1) := by
  induction st with
  | nil => simp [lookupKey] at h
  | cons a rest ih =>
    by_cases hk : a.1 = k
    · simp [hk]
    · rw [lookupKey, if_neg hk] at h
      simp only [List.map_cons, List.mem_cons]
      exact Or.inr (ih h)

theorem lookupKey_cleanupStep_none (acc : CacheState) (k k' : CacheKey)
    (h : lookupKey acc k' = none) : lookupKey (cleanupStep acc k) k' = none := by
  by_cases hc : ttlOf acc k = -1 ∨ ttlOf acc k ≤ 0
  · rw [show cleanupStep acc k = delKey acc k by simp [cleanupStep, hc]]
    by_cases hk : k' = k
    · subst hk; exact lookupKey_delKey_self acc k'
    · rw [lookupKey_delKey_ne _ _ _ hk]; exact h
  · rw [show cleanupStep acc k = acc by simp [cleanupStep, hc]]
    exact h

theorem cleanup_fold_preserves_none (ks : List CacheKey) :
    ∀ (acc : CacheState) (k : CacheKey), lookupKey acc k = none →
      lookupKey (ks.foldl cleanupStep acc) k = none := by
  induction ks with
  | nil => intro acc k h; exact h
  | cons a rest ih =>
    intro acc k h
    rw [List.foldl_cons]
    exact ih _ _ (lookupKey_cleanupStep_none acc a k h)

theorem cleanup_fold_deletes (ks : List CacheKey) :
    ∀ (acc : CacheState) (k : CacheKey), k ∈ ks →
      (ttlOf acc k = -1 ∨ ttlOf acc k = -2) →
      lookupKey (ks.foldl cleanupStep acc) k = none := by
  induction ks with
  | nil => intro acc k h; simp at h
  | cons a rest ih =>
    intro acc k hmem ht
    rw [List.foldl_cons]
    by_cases hk : k = a
    · subst hk
      have hdel : cleanupStep acc k = delKey acc k := by
        unfold cleanupStep
        rcases ht with h1 | h1 <;> rw [h1] <;> simp
      rw [hdel]
      exact cleanup_fold_preserves_none rest _ _ (lookupKey_delKey_self acc k)
    · have hmem' : k ∈ rest := by
        rcases List.mem_cons.mp hmem with h1 | h1
        · exact absurd h1 hk
        · exact h1
      apply ih _ _ hmem'
      have hpres : lookupKey (cleanupStep acc a) k = lookupKey acc k := by
        by_cases hc : ttlOf acc a = -1 ∨ ttlOf acc a ≤ 0
        · rw [show cleanupStep acc a = delKey acc a by simp [cleanupStep, hc]]
          exact lookupKey_delKey_ne _ _ _ hk
        · rw [show cleanupStep acc a = acc by simp [cleanupStep, hc]]
      unfold ttlOf
      rw [hpres]
      exact ht

theorem swapQueue_ne_tx (a : Nat) : CacheKey.swapQueue ≠ CacheKey.tx a :=
  fun hc => nomatch hc

theorem swapQueue_ne_swaps (a : Nat) : CacheKey.swapQueue ≠ CacheKey.swaps a :=
  fun hc => nomatch hc

theorem tx_ne_swaps (a b : Nat) : CacheKey.tx a ≠ CacheKey.swaps b :=
  fun hc => nomatch hc

theorem tx_ne_swapQueue (a : Nat) : CacheKey.tx a ≠ CacheKey.swapQueue :=
  fun hc => nomatch hc

theorem swaps_ne_swapQueue (a : Nat) : CacheKey.swaps a ≠ CacheKey.swapQueue :=
  fun hc => nomatch hc

theorem lookupKey_setEx_self (st : CacheState) (k : CacheKey) (ttl : Nat) (v : EntryData) :
    lookupKey (setEx st k ttl v) k = some ⟨v, some ttl⟩ :=
  lookupKey_setKeyEntry_self st k ⟨v, some ttl⟩

theorem lookupKey_setEx_ne (st : CacheState) (k k' : CacheKey) (ttl : Nat) (v : EntryData)
    (h : k' ≠ k) : lookupKey (setEx st k ttl v) k' = lookupKey st k' :=
  lookupKey_setKeyEntry_ne st k k' ⟨v, some ttl⟩ h

theorem queueOf_setEx_ne (st : CacheState) (k : CacheKey) (ttl : Nat) (v : EntryData)
    (h : CacheKey.swapQueue ≠ k) : queueOf (setEx st k ttl v) = queueOf st := by
  unfold queueOf
  rw [lookupKey_setEx_ne _ _ _ _ _ h]

/-- C8: `storeTransaction` writes the enriched transaction under `mev:tx:<hash>`
with the 300 s mempool TTL; exactly when its decoded call is a swap it
additionally writes `mev:swaps:<hash>` with the same TTL, left-pushes the hash
onto `mev:swap_queue` and trims that list to the newest 1000 entries, so the
queue never exceeds 1000 entries after the operation. -/
theorem storeTransaction_writes (st : CacheState) (t : EnrichedTx) :
    lookupKey (storeTransaction st t) (CacheKey.tx t.hash) =
        some ⟨EntryData.txVal t, some MEMPOOL_TTL⟩ ∧
    (isSwapTx t = true →
      lookupKey (storeTransaction st t) (CacheKey.swaps t.hash) =
          some ⟨EntryData.txVal t, some MEMPOOL_TTL⟩ ∧
      queueOf (storeTransaction st t) = (t.hash :: queueOf st).take 1000 ∧
      (queueOf (storeTransaction st t)).length ≤ 1000) ∧
    (isSwapTx t = false →
      lookupKey (storeTransaction st t) (CacheKey.swaps t.hash) =
          lookupKey st (CacheKey.swaps t.hash) ∧
      queueOf (storeTransaction st t) = queueOf st) ∧
    ((queueOf st).length ≤ 1000 → (queueOf (storeTransaction st t)).length ≤ 1000) := by
  cases hs : isSwapTx t with
  | false =>
    have hst : storeTransaction st t =
        setEx st (CacheKey.tx t.hash) MEMPOOL_TTL (EntryData.txVal t) := by
      simp [storeTransaction, hs]
    have hq : queueOf (storeTransaction st t) = queueOf st := by
      rw [hst]
      exact queueOf_setEx_ne _ _ _ _ (swapQueue_ne_tx t.hash)
    refine ⟨?_, ?_, ?_, ?_⟩
    · rw [hst]; exact lookupKey_setEx_self _ _ _ _
    · intro hc; exact nomatch hc
    · intro _
      exact ⟨by rw [hst]; exact lookupKey_setEx_ne _ _ _ _ _ (Ne.symm (tx_ne_swaps t.hash t.hash)), hq⟩
    · intro hlen; rw [hq]; exact hlen
  | true =>
    have hst : storeTransaction st t =
        lTrim (lPush (setEx (setEx st (CacheKey.tx t.hash) MEMPOOL_TTL (EntryData.txVal t))
            (CacheKey.swaps t.hash) MEMPOOL_TTL (EntryData.txVal t))
          CacheKey.swapQueue t.hash) CacheKey.swapQueue 0 999 := by
      simp [storeTransaction, hs]
    have hqueue : queueOf (storeTransaction st t) = (t.hash :: queueOf st).take 1000 := by
      rw [hst, queueOf_lTrim, queueOf_lPush,
        queueOf_setEx_ne _ _ _ _ (swapQueue_ne_swaps t.hash),
        queueOf_setEx_ne _ _ _ _ (swapQueue_ne_tx t.hash)]
    refine ⟨?_, ?_, ?_, ?_⟩
    · rw [hst, lookupKey_lTrim_ne _ _ _ _ _ (tx_ne_swapQueue t.hash),
        lookupKey_lPush_ne _ _ _ _ (tx_ne_swapQueue t.hash),
        lookupKey_setEx_ne _ _ _ _ _ (tx_ne_swaps t.hash t.hash)]
      exact lookupKey_setEx_self _ _ _ _
    · intro _
      refine ⟨?_, hqueue, ?_⟩
      · rw [hst, lookupKey_lTrim_ne _ _ _ _ _ (swaps_ne_swapQueue t.hash),
          lookupKey_lPush_ne _ _ _ _ (swaps_ne_swapQueue t.hash)]
        exact lookupKey_setEx_self _ _ _ _
      · rw [hqueue]; exact (t.hash :: queueOf st).length_take_le 1000
    · intro hc; exact nomatch hc
    · intro _; rw [hqueue]; exact (t.hash :: queueOf st).length_take_le 1000

/-- A concrete enriched swap transaction, used by the cache witnesses. -/
def wSwapTx : EnrichedTx :=
  { hash := 77, sender := 1
    toAddr := some 0x60aE616a2155Ee3d9A68541Ba4544862310933d4
    value := 0, nonce := 0
    decodedCall := some { contractAddress := 0x60aE616a2155Ee3d9A68541Ba4544862310933d4
                          functionName := "swapExactTokensForTokens", isSwap := true
                          amountIn := some 5, amountOut := none, path := some [7, 9]
                          tokenIn := some 7, tokenOut := some 9 } }

/-- Witness for C8 at a concrete store and swap transaction. -/
theorem storeTransaction_writes_witness :
    lookupKey (storeTransaction [] wSwapTx) (CacheKey.swaps 77) =
      some ⟨EntryData.txVal wSwapTx, some 300⟩ ∧
    queueOf (storeTransaction [] wSwapTx) = [77] := by
  have h := (storeTransaction_writes [] wSwapTx).2.1 rfl
  exact ⟨h.1, h.2.1.trans (by rfl)⟩

theorem storeTransaction_creates_queue_noTtl (st : CacheState) (t : EnrichedTx)
    (hs : isSwapTx t = true) (hq : lookupKey st CacheKey.swapQueue = none) :
    ttlOf (storeTransaction st t) CacheKey.swapQueue = -1 := by
  have hst : storeTransaction st t =
      lTrim (lPush (setEx (setEx st (CacheKey.tx t.hash) MEMPOOL_TTL (EntryData.txVal t))
          (CacheKey.swaps t.hash) MEMPOOL_TTL (EntryData.txVal t))
        CacheKey.swapQueue t.hash) CacheKey.swapQueue 0 999 := by
    simp [storeTransaction, hs]
  have hq2 : lookupKey (setEx (setEx st (CacheKey.tx t.hash) MEMPOOL_TTL (EntryData.txVal t))
      (CacheKey.swaps t.hash) MEMPOOL_TTL (EntryData.txVal t)) CacheKey.swapQueue = none := by
    rw [lookupKey_setEx_ne _ _ _ _ _ (swapQueue_ne_swaps t.hash),
      lookupKey_setEx_ne _ _ _ _ _ (swapQueue_ne_tx t.hash)]
    exact hq
  have htr := lTrim_keeps_ttl _ _ _ (lPush_fresh _ t.hash hq2)
  rw [hst]
  simp [ttlOf, htr]

/-- The `mev:swap_queue` key never acquires an expiry: `storeTransaction`
(its only writer) creates it without a TTL and `LPUSH`/`LTRIM` keep whatever
expiry state it has. -/
theorem storeTransaction_swapQueue_ttl (st : CacheState) (t : EnrichedTx)
    (hd : lookupKey st CacheKey.swapQueue = none ∨ ttlOf st CacheKey.swapQueue = -1) :
    lookupKey (storeTransaction st t) CacheKey.swapQueue = none ∨
    ttlOf (storeTransaction st t) CacheKey.swapQueue = -1 := by
  cases hs : isSwapTx t with
  | false =>
    have hst : storeTransaction st t =
        setEx st (CacheKey.tx t.hash) MEMPOOL_TTL (EntryData.txVal t) := by
      simp [storeTransaction, hs]
    have hl : lookupKey (storeTransaction st t) CacheKey.swapQueue =
        lookupKey st CacheKey.swapQueue := by
      rw [hst]
      exact lookupKey_setEx_ne _ _ _ _ _ (swapQueue_ne_tx t.hash)
    rcases hd with h | h
    · exact Or.inl (hl.trans h)
    · right
      unfold ttlOf at h ⊢
      rw [hl]
      exact h
  | true =>
    right
    rcases hd with hnone | httl
    · exact storeTransaction_creates_queue_noTtl st t hs hnone
    · have hst : storeTransaction st t =
          lTrim (lPush (setEx (setEx st (CacheKey.tx t.hash) MEMPOOL_TTL (EntryData.txVal t))
              (CacheKey.swaps t.hash) MEMPOOL_TTL (EntryData.txVal t))
            CacheKey.swapQueue t.hash) CacheKey.swapQueue 0 999 := by
        simp [storeTransaction, hs]
      have hl2 : lookupKey (setEx (setEx st (CacheKey.tx t.hash) MEMPOOL_TTL (EntryData.txVal t))
          (CacheKey.swaps t.hash) MEMPOOL_TTL (EntryData.txVal t)) CacheKey.swapQueue =
          lookupKey st CacheKey.swapQueue := by
        rw [lookupKey_setEx_ne _ _ _ _ _ (swapQueue_ne_swaps t.hash),
          lookupKey_setEx_ne _ _ _ _ _ (swapQueue_ne_tx t.hash)]
      rcases hq : lookupKey st CacheKey.swapQueue with _ | e
      · exact storeTransaction_creates_queue_noTtl st t hs hq
      · rcases e with ⟨d, tt⟩
        cases tt with
        | some v =>
          simp only [ttlOf, hq] at httl
          omega
        | none =>
          rw [hst]
          cases d with
          | listVal xs =>
            have hq2 : lookupKey (setEx (setEx st (CacheKey.tx t.hash) MEMPOOL_TTL
                (EntryData.txVal t)) (CacheKey.swaps t.hash) MEMPOOL_TTL (EntryData.txVal t))
                CacheKey.swapQueue = some ⟨EntryData.listVal xs, none⟩ := hl2.trans hq
            have hp : lookupKey (lPush (setEx (setEx st (CacheKey.tx t.hash) MEMPOOL_TTL
                (EntryData.txVal t)) (CacheKey.swaps t.hash) MEMPOOL_TTL (EntryData.txVal t))
                CacheKey.swapQueue t.hash) CacheKey.swapQueue =
                some ⟨EntryData.listVal (t.hash :: xs), none⟩ := by
              simp [lPush, hq2, lookupKey_setKeyEntry_self]
            have htr := lTrim_keeps_ttl _ _ _ hp
            simp [ttlOf, htr]
          | txVal tx0 =>
            have hq2 : lookupKey (setEx (setEx st (CacheKey.tx t.hash) MEMPOOL_TTL
                (EntryData.txVal t)) (CacheKey.swaps t.hash) MEMPOOL_TTL (EntryData.txVal t))
                CacheKey.swapQueue = some ⟨EntryData.txVal tx0, none⟩ := hl2.trans hq
            have hp : lookupKey (lPush (setEx (setEx st (CacheKey.tx t.hash) MEMPOOL_TTL
                (EntryData.txVal t)) (CacheKey.swaps t.hash) MEMPOOL_TTL (EntryData.txVal t))
                CacheKey.swapQueue t.hash) CacheKey.swapQueue =
                some ⟨EntryData.listVal [t.hash], none⟩ := by
              simp [lPush, hq2, lookupKey_setKeyEntry_self]
            have htr := lTrim_keeps_ttl _ _ _ hp
            simp [ttlOf, htr]

/-- C10: every cleanup run deletes every `mev:`-scoped key whose TTL is `-1`
(no expiry set); the `mev:swap_queue` list is created by `LPUSH` with no
expiry and never acquires one, so a cleanup run that finds it present deletes
it entirely. -/
theorem cleanup_deletes_persistent_keys :
    (∀ (st : CacheState) (k : CacheKey), isMevKey k = true → ttlOf st k = -1 →
        lookupKey (cleanupOldEntries st) k = none) ∧
    (∀ (st : CacheState) (t : EnrichedTx), isSwapTx t = true →
        lookupKey st CacheKey.swapQueue = none →
        ttlOf (storeTransaction st t) CacheKey.swapQueue = -1) ∧
    (∀ (st : CacheState) (t : EnrichedTx),
        (lookupKey st CacheKey.swapQueue = none ∨ ttlOf st CacheKey.swapQueue = -1) →
        (lookupKey (storeTransaction st t) CacheKey.swapQueue = none ∨
          ttlOf (storeTransaction st t) CacheKey.swapQueue = -1)) ∧
    (∀ st : CacheState, ttlOf st CacheKey.swapQueue = -1 →
        lookupKey (cleanupOldEntries st) CacheKey.swapQueue = none) := by
  have h1 : ∀ (st : CacheState) (k : CacheKey), isMevKey k = true → ttlOf st k = -1 →
      lookupKey (cleanupOldEntries st) k = none := by
    intro st k hmev ht
    unfold cleanupOldEntries
    refine cleanup_fold_deletes _ _ _ ?_ (Or.inl ht)
    rcases hl : lookupKey st k with _ | e
    · simp [ttlOf, hl] at ht
    · exact List.mem_filter.mpr ⟨lookupKey_some_mem st k e hl, hmev⟩
  exact ⟨h1, storeTransaction_creates_queue_noTtl, storeTransaction_swapQueue_ttl,
    fun st ht => h1 st CacheKey.swapQueue rfl ht⟩

/-- Witness for C10: storing one swap creates `mev:swap_queue` with TTL `-1`,
and the next cleanup deletes it. -/
theorem cleanup_deletes_persistent_keys_witness :
    ttlOf (storeTransaction [] wSwapTx) CacheKey.swapQueue = -1 ∧
    lookupKey (cleanupOldEntries (storeTransaction [] wSwapTx)) CacheKey.swapQueue = none :=
  ⟨cleanup_deletes_persistent_keys.2.1 [] wSwapTx rfl rfl,
   cleanup_deletes_persistent_keys.2.2.2 _
     (cleanup_deletes_persistent_keys.2.1 [] wSwapTx rfl rfl)⟩

/-! ### Properties of the bundle simulator -/

theorem runBundleLoop_ok (env : SimEnv) (n0 : Nat) :
    ∀ (txs : List TxRequest) (i : Nat),
      (∀ j, j < txs.length → okAt env (i + j)) →
      (runBundleLoop env n0 txs i).2 =
        Except.ok (sumUsedFrom env i txs.length, sumCostFrom env i txs.length) ∧
      (runBundleLoop env n0 txs i).1.length = txs.length := by
  intro txs
  induction txs with
  | nil => intro i _; exact ⟨rfl, rfl⟩
  | cons t rest ih =>
    intro i h
    obtain ⟨r, hr, hs⟩ := h 0 (Nat.succ_pos _)
    have hr' : (env i).receipt = some r := hr
    have ih' := ih (i + 1) (fun j hj => by
      have hh := h (j + 1) (Nat.succ_lt_succ hj)
      have he : i + (j + 1) = i + 1 + j := by omega
      exact he ▸ hh)
    constructor
    · simp only [runBundleLoop, hr']
      rw [if_neg hs]
      simp only [ih'.1]
      simp only [sumUsedFrom, sumCostFrom, usedAt, costAt, hr']
    · simp only [runBundleLoop, hr']
      rw [if_neg hs]
      simp only [List.length_cons, ih'.2]

theorem fastProfit_eq (bundle : TransactionBundle) (tc : Nat) :
    fastProfit bundle tc =
      (bundle.expectedProfit : Int) - (tc : Int) - (sumValues bundle.transactions : Int) := by
  have hfold : ∀ (l : List TxRequest) (a : Int),
      l.foldl (fun acc t =>
        match t.value with
        | some v => acc - (v : Int)
        | none => acc) a = a - (sumValues l : Int) := by
    intro l
    induction l with
    | nil => intro a; simp [sumValues]
    | cons t rest ih =>
      intro a
      rcases hv : t.value with _ | v
      · simp only [List.foldl_cons, hv]
        rw [ih]
        simp [sumValues, hv]
      · simp only [List.foldl_cons, hv]
        rw [ih]
        simp only [sumValues, List.map_cons, List.sum_cons, hv, Option.getD_some]
        push_cast
        ring
  simp only [fastProfit]
  rw [hfold]
  by_cases he : bundle.expectedProfit = 0
  · rw [if_neg (fun hc => hc he), he]
    ring
  · rw [if_pos he]
    ring

/-- C1: in fast mode, when every transaction of the bundle produces a
successful receipt, `simulateBundle` succeeds and reports
profit = expected-profit − Σ gas_used·gas_price − Σ transaction-value, in
exact integer wei arithmetic. -/
theorem simulateBundle_fast_profit (env : SimEnv) (n0 ib fb : Nat)
    (bundle : TransactionBundle)
    (hok : ∀ j, j < bundle.transactions.length → okAt env j) :
    (simulateBundle env n0 ib fb true bundle).1.success = true ∧
    (simulateBundle env n0 ib fb true bundle).1.profit =
      (bundle.expectedProfit : Int)
        - (sumCostFrom env 0 bundle.transactions.length : Int)
        - (sumValues bundle.transactions : Int) := by
  have h := runBundleLoop_ok env n0 bundle.transactions 0 (fun j hj => by
    have hh := hok j hj
    have he : j = 0 + j := by omega
    exact he ▸ hh)
  simp only [simulateBundle, h.1]
  exact ⟨trivial, fastProfit_eq bundle _⟩

/-- The sandbox oracle of the happy-path witness: every receipt succeeds. -/
def wEnvOk : SimEnv := fun _ =>
  { feeGasPrice := some 30, receipt := some { status := 1, gasUsed := 1000 } }

/-- The two-transaction bundle used by the simulator witnesses. -/
def wBundle : TransactionBundle :=
  { transactions := [{ toAddr := some 1, value := some 50, gasLimit := none, data := none },
                     { toAddr := some 2, value := none, gasLimit := some 0, data := none }]
    expectedProfit := 70000
    description := "witness bundle" }

/-- Witness for C1: 70000 − 2·1000·30 − 50 = 9950. -/
theorem simulateBundle_fast_profit_witness :
    (simulateBundle wEnvOk 5 0 0 true wBundle).1.success = true ∧
    (simulateBundle wEnvOk 5 0 0 true wBundle).1.profit = 9950 := by
  have h := simulateBundle_fast_profit wEnvOk 5 0 0 wBundle (fun j hj =>
    ⟨{ status := 1, gasUsed := 1000 }, rfl, by decide⟩)
  exact ⟨h.1, h.2.trans (by decide)⟩

theorem string_append3_ne_empty (s t u : String) (hs : s ≠ "") : s ++ t ++ u ≠ "" := by
  intro hc
  have hl := congrArg String.length hc
  rw [String.length_append, String.length_append] at hl
  have hs' : s.length ≠ 0 := by
    intro h0
    exact hs (by cases s with
      | mk cs => cases cs with
        | nil => rfl
        | cons c cs' => simp [String.length] at h0)
  have h0 : ("" : String).length = 0 := rfl
  omega

theorem runBundleLoop_fail (env : SimEnv) (n0 : Nat) :
    ∀ (k : Nat) (txs : List TxRequest) (i : Nat),
      k < txs.length → (∀ j, j < k → okAt env (i + j)) → failAt env (i + k) →
      ∃ e, (runBundleLoop env n0 txs i).2 = Except.error e ∧ e ≠ "" ∧
        (runBundleLoop env n0 txs i).1.length = k + 1 := by
  intro k
  induction k with
  | zero =>
    intro txs i hlt _ hfail
    cases txs with
    | nil => simp at hlt
    | cons t rest =>
      have hfail' : failAt env i := hfail
      rcases hfail' with hnone | ⟨r, hr, hst⟩
      · refine ⟨"Transaction " ++ toString (i + 1) ++ " failed - no receipt", ?_, ?_, ?_⟩
        · simp only [runBundleLoop, hnone]
        · exact string_append3_ne_empty _ _ _ (by decide)
        · simp only [runBundleLoop, hnone, List.length_cons, List.length_nil]
      · refine ⟨"Transaction " ++ toString (i + 1) ++ " reverted", ?_, ?_, ?_⟩
        · simp only [runBundleLoop, hr]
          rw [if_pos hst]
        · exact string_append3_ne_empty _ _ _ (by decide)
        · simp only [runBundleLoop, hr]
          rw [if_pos hst]
          simp
  | succ k ih =>
    intro txs i hlt hok hfail
    cases txs with
    | nil => simp at hlt
    | cons t rest =>
      obtain ⟨r, hr, hst⟩ := hok 0 (Nat.succ_pos _)
      have hr' : (env i).receipt = some r := hr
      have hlt' : k < rest.length := by
        simp only [List.length_cons] at hlt
        omega
      have hok' : ∀ j, j < k → okAt env (i + 1 + j) := fun j hj => by
        have hh := hok (j + 1) (Nat.succ_lt_succ hj)
        have he : i + (j + 1) = i + 1 + j := by omega
        exact he ▸ hh
      have hfail' : failAt env (i + 1 + k) := by
        have he : i + (k + 1) = i + 1 + k := by omega
        exact he ▸ hfail
      obtain ⟨e, he, hne, hlen⟩ := ih rest (i + 1) hlt' hok' hfail'
      refine ⟨e, ?_, hne, ?_⟩
      · simp only [runBundleLoop, hr']
        rw [if_neg hst]
        simp only [he]
      · simp only [runBundleLoop, hr']
        rw [if_neg hst]
        simp only [List.length_cons, hlen]

/-- C2: when some transaction of the bundle yields no receipt or a reverted
receipt (all earlier ones succeeding), `simulateBundle` broadcasts no further
transactions, catches the abort, and returns a `success = false` result with
a non-empty error message instead of throwing. -/
theorem simulateBundle_aborts (env : SimEnv) (n0 ib fb : Nat) (fast : Bool)
    (bundle : TransactionBundle) (i : Nat)
    (hi : i < bundle.transactions.length)
    (hok : ∀ j, j < i → okAt env j)
    (hf : failAt env i) :
    (simulateBundle env n0 ib fb fast bundle).1.success = false ∧
    (∃ e, (simulateBundle env n0 ib fb fast bundle).1.errorMsg = some e ∧ e ≠ "") ∧
    (simulateBundle env n0 ib fb fast bundle).2.length = i + 1 := by
  obtain ⟨e, he, hne, hlen⟩ := runBundleLoop_fail env n0 i bundle.transactions 0 hi
    (fun j hj => (Nat.zero_add j).symm ▸ hok j hj) ((Nat.zero_add i).symm ▸ hf)
  refine ⟨?_, ⟨e, ?_, hne⟩, ?_⟩
  · simp only [simulateBundle, he]
  · simp only [simulateBundle, he]
  · simp only [simulateBundle, he]
    exact hlen

/-- The sandbox oracle of the failure witnesses: the second transaction's
receipt never arrives. -/
def wEnvFail : SimEnv := fun i =>
  if i = 1 then { feeGasPrice := none, receipt := none }
  else { feeGasPrice := some 30, receipt := some { status := 1, gasUsed := 1000 } }

/-- Witness for C2 at a concrete bundle whose second transaction fails. -/
theorem simulateBundle_aborts_witness :
    (simulateBundle wEnvFail 5 0 0 true wBundle).1.success = false ∧
    (∃ e, (simulateBundle wEnvFail 5 0 0 true wBundle).1.errorMsg = some e ∧ e ≠ "") ∧
    (simulateBundle wEnvFail 5 0 0 true wBundle).2.length = 2 :=
  simulateBundle_aborts wEnvFail 5 0 0 true wBundle 1 (by decide)
    (fun j hj => by
      have hj0 : j = 0 := by omega
      subst hj0
      exact ⟨{ status := 1, gasUsed := 1000 }, rfl, by decide⟩)
    (Or.inl rfl)

/-- C9: every `success = false` result of `simulateBundle` carries
`gasUsed = 0` and `profit = "0"`, even when earlier transactions of the
bundle succeeded and consumed gas before the failure. -/
theorem simulateBundle_failure_result (env : SimEnv) (n0 ib fb : Nat) (fast : Bool)
    (bundle : TransactionBundle)
    (h : (simulateBundle env n0 ib fb fast bundle).1.success = false) :
    (simulateBundle env n0 ib fb fast bundle).1.gasUsed = 0 ∧
    (simulateBundle env n0 ib fb fast bundle).1.profit = 0 := by
  rcases hr : (runBundleLoop env n0 bundle.transactions 0).2 with e | p
  · simp [simulateBundle, hr]
  · simp only [simulateBundle, hr] at h
    exact nomatch h

/-- Witness for C9: the failing bundle of `wEnvFail` (whose first transaction
did succeed and used 1000 gas) still reports zero gas and zero profit. -/
theorem simulateBundle_failure_result_witness :
    (simulateBundle wEnvFail 5 0 0 true wBundle).1.gasUsed = 0 ∧
    (simulateBundle wEnvFail 5 0 0 true wBundle).1.profit = 0 :=
  simulateBundle_failure_result wEnvFail 5 0 0 true wBundle (by decide)

theorem gasPriceFor_ne_zero (s : SimStep) : gasPriceFor s ≠ 0 := by
  unfold gasPriceFor
  rcases s.feeGasPrice with _ | g
  · decide
  · by_cases hg : g = 0
    · simp [hg]
    · simp [hg]

theorem gasPriceFor_of_some (s : SimStep) (g : Nat) (hg : s.feeGasPrice = some g)
    (h0 : g ≠ 0) : gasPriceFor s = g := by
  simp [gasPriceFor, hg, h0]

theorem gasPriceFor_default (s : SimStep)
    (h : s.feeGasPrice = none ∨ s.feeGasPrice = some 0) :
    gasPriceFor s = 25000000000 := by
  rcases h with h | h <;> simp [gasPriceFor, h]

/-- Placeholder broadcast record used as the out-of-range default of
`List.getD`. -/
def dSent : SentTx :=
  { nonce := 0, gasPrice := 0, gasLimit := 0, toAddr := none, value := none }

theorem runBundleLoop_sent_props (env : SimEnv) (n0 : Nat) :
    ∀ (txs : List TxRequest) (i : Nat),
      (runBundleLoop env n0 txs i).1.length ≤ txs.length ∧
      ∀ j, j < (runBundleLoop env n0 txs i).1.length →
        ((runBundleLoop env n0 txs i).1.getD j dSent).nonce = n0 + (i + j) ∧
        ((runBundleLoop env n0 txs i).1.getD j dSent).gasPrice = gasPriceFor (env (i + j)) := by
  intro txs
  induction txs with
  | nil =>
    intro i
    exact ⟨Nat.le_refl 0, fun j hj => absurd hj (by simp [runBundleLoop])⟩
  | cons t rest ih =>
    intro i
    rcases hr : (env i).receipt with _ | r
    · constructor
      · simp [runBundleLoop, hr]
      · intro j hj
        have hj0 : j = 0 := by
          simp only [runBundleLoop, hr, List.length_cons, List.length_nil] at hj
          omega
        subst hj0
        refine ⟨?_, ?_⟩ <;> simp [runBundleLoop, hr]
    · by_cases hst : r.status = 0
      · constructor
        · simp [runBundleLoop, hr, hst]
        · intro j hj
          have hj0 : j = 0 := by
            simp only [runBundleLoop, hr, hst, if_true, List.length_cons,
              List.length_nil] at hj
            omega
          subst hj0
          refine ⟨?_, ?_⟩ <;> simp [runBundleLoop, hr, hst]
      · have ih' := ih (i + 1)
        constructor
        · simp only [runBundleLoop, hr]
          rw [if_neg hst]
          simp only [List.length_cons]
          exact Nat.succ_le_succ ih'.1
        · intro j hj
          cases j with
          | zero =>
            refine ⟨?_, ?_⟩ <;> · simp only [runBundleLoop, hr]
                                  rw [if_neg hst]
                                  simp
          | succ j' =>
            have hj' : j' < (runBundleLoop env n0 rest (i + 1)).1.length := by
              simp only [runBundleLoop, hr] at hj
              rw [if_neg hst] at hj
              simp only [List.length_cons] at hj
              omega
            have hp := ih'.2 j' hj'
            have hidx : i + 1 + j' = i + (j' + 1) := by omega
            rw [hidx] at hp
            refine ⟨?_, ?_⟩
            · simp only [runBundleLoop, hr]
              rw [if_neg hst]
              simp only [List.getD_cons_succ]
              exact hp.1
            · simp only [runBundleLoop, hr]
              rw [if_neg hst]
              simp only [List.getD_cons_succ]
              exact hp.2

theorem simulateBundle_sents (env : SimEnv) (n0 ib fb : Nat) (fast : Bool)
    (bundle : TransactionBundle) :
    (simulateBundle env n0 ib fb fast bundle).2 =
      (runBundleLoop env n0 bundle.transactions 0).1 := by
  rcases hr : (runBundleLoop env n0 bundle.transactions 0).2 with e | p <;>
    simp [simulateBundle, hr]

/-- C3: every broadcast transaction of a bundle carries nonce `N + i` (with
`N` the wallet transaction count read once at bundle start and `i` its
0-indexed position), and a non-zero gas price equal to the sandbox fee-data
`gasPrice`, falling back to 25 gwei when the fee data has none (or a zero
one); when every receipt succeeds, all bundle transactions are broadcast. -/
theorem simulateBundle_nonce_gasPrice (env : SimEnv) (n0 ib fb : Nat) (fast : Bool)
    (bundle : TransactionBundle) :
    (simulateBundle env n0 ib fb fast bundle).2.length ≤ bundle.transactions.length ∧
    ((∀ j, j < bundle.transactions.length → okAt env j) →
      (simulateBundle env n0 ib fb fast bundle).2.length = bundle.transactions.length) ∧
    ∀ i, i < (simulateBundle env n0 ib fb fast bundle).2.length →
      ((simulateBundle env n0 ib fb fast bundle).2.getD i dSent).nonce = n0 + i ∧
      ((simulateBundle env n0 ib fb fast bundle).2.getD i dSent).gasPrice ≠ 0 ∧
      (∀ g, (env i).feeGasPrice = some g → g ≠ 0 →
        ((simulateBundle env n0 ib fb fast bundle).2.getD i dSent).gasPrice = g) ∧
      (((env i).feeGasPrice = none ∨ (env i).feeGasPrice = some 0) →
        ((simulateBundle env n0 ib fb fast bundle).2.getD i dSent).gasPrice = 25000000000) := by
  have hsents := simulateBundle_sents env n0 ib fb fast bundle
  have hprops := runBundleLoop_sent_props env n0 bundle.transactions 0
  refine ⟨?_, ?_, ?_⟩
  · rw [hsents]; exact hprops.1
  · intro hok
    rw [hsents]
    exact (runBundleLoop_ok env n0 bundle.transactions 0
      (fun j hj => (Nat.zero_add j).symm ▸ hok j hj)).2
  · intro i hi
    rw [hsents] at hi ⊢
    have hp := hprops.2 i hi
    rw [Nat.zero_add] at hp
    refine ⟨hp.1, ?_, ?_, ?_⟩
    · rw [hp.2]; exact gasPriceFor_ne_zero (env i)
    · intro g hg h0
      rw [hp.2]; exact gasPriceFor_of_some (env i) g hg h0
    · intro hd
      rw [hp.2]; exact gasPriceFor_default (env i) hd

/-- Witness for C3: the second broadcast of the failure-witness bundle has
nonce 7 + 1 and the 25 gwei fallback gas price. -/
theorem simulateBundle_nonce_gasPrice_witness :
    ((simulateBundle wEnvFail 7 0 0 true wBundle).2.getD 1 dSent).nonce = 7 + 1 ∧
    ((simulateBundle wEnvFail 7 0 0 true wBundle).2.getD 1 dSent).gasPrice = 25000000000 :=
  ⟨((simulateBundle_nonce_gasPrice wEnvFail 7 0 0 true wBundle).2.2 1 (by decide)).1,
   ((simulateBundle_nonce_gasPrice wEnvFail 7 0 0 true wBundle).2.2 1
      (by decide)).2.2.2 (Or.inl rfl)⟩

/-! ### The decoder round trip -/

theorem get?_zero_of_ne_nil (l : List Nat) (h : l ≠ []) : l.get? 0 = some (l.head h) := by
  cases l with
  | nil => exact absurd rfl h
  | cons a t => rfl

theorem get?_last_of_ne_nil (l : List Nat) (h : l ≠ []) :
    l.get? (l.length - 1) = some (l.getLast h) := by
  rw [List.get?_eq_getElem?, ← List.getLast?_eq_getElem?]
  exact List.getLast?_eq_getLast_of_ne_nil h

theorem decodeSwapArgs_encode (a b : Nat) (path : List Nat) (toA dl : Nat) :
    decodeSwapArgs (a :: b :: 160 :: toA :: dl :: path.length :: path) =
      some (a, b, path, toA, dl) := by
  simp only [decodeSwapArgs, List.get?_cons_zero, List.get?_cons_succ]
  norm_num
  exact fun hx => absurd hx (by omega)

/-- C5: decoding the calldata produced by encoding
`swapExactTokensForTokens(a, b, path, to, dl)` against the router ABI (for
any registered router and non-empty path of in-range words) yields a decoded
call with `isSwap = true`, `amountIn = a`, `path = path`,
`tokenIn = path[0]` and `tokenOut` the last element of `path`. -/
theorem decodeTransaction_roundtrip (router a b : Nat) (path : List Nat) (toA dl : Nat)
    (hrouter : router ∈ knownRouters) (hne : path ≠ [])
    (ha : a < 2 ^ 256) (hb : b < 2 ^ 256) (hto : toA < 2 ^ 256) (hdl : dl < 2 ^ 256)
    (hpath : ∀ x ∈ path, x < 2 ^ 256) :
    decodeTransaction router (encodeSwapExactTokensForTokens a b path toA dl) =
      some { contractAddress := router
             functionName := "swapExactTokensForTokens"
             isSwap := true
             amountIn := some a
             amountOut := none
             path := some path
             tokenIn := some (path.head hne)
             tokenOut := some (path.getLast hne) } := by
  have hmap : path.map (fun x => x % 2 ^ 256) = path := by
    have h1 := List.map_congr_left (l := path)
      (f := fun x => x % 2 ^ 256) (g := fun x => x)
      (fun x hx => Nat.mod_eq_of_lt (hpath x hx))
    rw [h1]
    exact List.map_id' path
  have hwords : (encodeSwapExactTokensForTokens a b path toA dl).words =
      a :: b :: 160 :: toA :: dl :: path.length :: path := by
    simp only [encodeSwapExactTokensForTokens, hmap, Nat.mod_eq_of_lt ha,
      Nat.mod_eq_of_lt hb, Nat.mod_eq_of_lt hto, Nat.mod_eq_of_lt hdl,
      List.cons_append, List.nil_append]
  have hsel : (encodeSwapExactTokensForTokens a b path toA dl).selector = 0x38ed1739 := rfl
  simp only [decodeTransaction, if_pos hrouter, hsel, hwords, decodeSwapArgs_encode]
  rw [if_pos trivial]
  rw [get?_zero_of_ne_nil path hne, get?_last_of_ne_nil path hne]

/-- Witness for C5 at the TraderJoe router with
`swapExactTokensForTokens(5, 0, [7, 9], 11, 13)`. -/
theorem decodeTransaction_roundtrip_witness :
    decodeTransaction 0x60aE616a2155Ee3d9A68541Ba4544862310933d4
        (encodeSwapExactTokensForTokens 5 0 [7, 9] 11 13) =
      some { contractAddress := 0x60aE616a2155Ee3d9A68541Ba4544862310933d4
             functionName := "swapExactTokensForTokens", isSwap := true
             amountIn := some 5, amountOut := none, path := some [7, 9]
             tokenIn := some 7, tokenOut := some 9 } :=
  decodeTransaction_roundtrip 0x60aE616a2155Ee3d9A68541Ba4544862310933d4 5 0 [7, 9] 11 13
    (by decide) (by decide) (by decide) (by decide) (by decide) (by decide) (by decide)

/-! ### The fork-reset call shapes -/

/-- Following the words of the specification (§4.4 reset and claim C4): the
reset sequence opens with an `anvil_reset` carrying the single
`{forking: {jsonRpcUrl, blockNumber: head − 2}}` object argument, and a later
call re-funds the default account to the configured 10^24 wei test balance.
Stated claim-side, to be compared with the two `resetFork` code paths. -/
def resetCallsPerSpec (calls : List RpcCall) (head : Nat) : Prop :=
  calls.head? = some { method := "anvil_reset"
                       params := [RpcParam.forkingObj mainnetRpcUrl ((head : Int) - 2)] } ∧
  { method := "anvil_setBalance"
    params := [RpcParam.addr defaultAnvilAccount, RpcParam.num ((10 : Int) ^ 24)] }
    ∈ calls.tail

/-- C4 evidence: the current simulator's `resetFork` meets the specified
object-argument-plus-refund shape for every head block, but the legacy
simulator's `resetFork` (`src/unnamed/part_003`) does not — at head block 100
it sends `anvil_reset` with two positional parameters (the fork URL and block
98) and never re-funds. -/
theorem resetFork_spec_vs_legacy :
    (∀ head : Nat, resetCallsPerSpec (resetForkCalls head) head) ∧
    ¬ resetCallsPerSpec (resetForkCallsLegacy 100) 100 ∧
    resetForkCallsLegacy 100 =
      [{ method := "anvil_reset"
         params := [RpcParam.str mainnetRpcUrl, RpcParam.num 98] }] := by
  refine ⟨fun head => ⟨rfl, by simp [resetForkCalls]⟩, fun hc => absurd hc.1 (by decide), rfl⟩

/-! ### The dedup set discipline -/

theorem handlePending_card (st : ListenerState) (h : Nat) (f : Option FetchedTx)
    (hcard : st.seen.card ≤ 10000) :
    ((handlePendingTransaction st h f).1).seen.card ≤ 10000 := by
  by_cases hm : h ∈ st.seen
  · simp [handlePendingTransaction, hm]
    exact hcard
  · rcases f with _ | ftx
    · simp [handlePendingTransaction, hm]
      exact hcard
    · by_cases hc : 10000 < (insert h st.seen).card
      all_goals rw [Finset.card_insert_of_not_mem hm] at hc
      · simp [handlePendingTransaction, hm, hc]
      · simp [handlePendingTransaction, hm, hc]
        omega

theorem runListener_card (trace : List (Nat × Option FetchedTx)) :
    ∀ st : ListenerState, st.seen.card ≤ 10000 →
      ((runListener st trace).1).seen.card ≤ 10000 := by
  induction trace with
  | nil => intro st hc; exact hc
  | cons p rest ih =>
    rcases p with ⟨h, f⟩
    intro st hc
    simp only [runListener]
    exact ih _ (handlePending_card st h f hc)

/-- C7: after every completed invocation of the pending-transaction handler
(started from an empty dedup set) the dedup set holds at most 10 000 entries,
and an invocation whose insertion pushes the set past 10 000 clears it
wholesale before returning. -/
theorem dedup_set_bounded :
    (∀ (cache0 : CacheState) (trace : List (Nat × Option FetchedTx)),
      ((runListener { seen := ∅, cache := cache0 } trace).1).seen.card ≤ 10000) ∧
    (∀ (st : ListenerState) (h : Nat) (f : FetchedTx), h ∉ st.seen →
      10000 < (insert h st.seen).card →
      ((handlePendingTransaction st h (some f)).1).seen = ∅) := by
  constructor
  · intro c0 trace
    exact runListener_card trace _ (by simp)
  · intro st h f hm hc
    rw [Finset.card_insert_of_not_mem hm] at hc
    simp [handlePendingTransaction, hm, hc]

/-- A concrete fetched transaction (plain transfer, no decoded call), used by
the listener witnesses. -/
def wFetched : FetchedTx :=
  { sender := 0, toAddr := none, value := 0, nonce := 0
    data := { selector := 0, words := [] } }

/-- Witness for C7: inserting the 10 001st hash clears the dedup set. -/
theorem dedup_set_bounded_witness :
    ((handlePendingTransaction { seen := Finset.range 10000, cache := [] } 10000
        (some wFetched)).1).seen = ∅ :=
  dedup_set_bounded.2 _ 10000 wFetched (by simp)
    (by rw [Finset.card_insert_of_not_mem (by simp), Finset.card_range]; omega)

/-- How many times the handler ran `storeTransaction` for hash `h` in an
event trace. -/
def countStore (h : Nat) (evs : List MEvent) : Nat :=
  evs.countP (fun e => decide (e = MEvent.storeTx h))

/-- The literal reading of claim C6's second clause: no hash is ever enriched
and stored twice over a whole run. -/
def storedAtMostOnce (evs : List MEvent) : Prop :=
  ∀ h, countStore h evs ≤ 1

/-- Between any two stores of the same hash there is a wholesale clear of the
dedup set: scanning the events, a hash is never stored twice since the last
`clearSeen` (the accumulator carries the hashes stored since then). -/
def noRestoreSince : List MEvent → Finset Nat → Prop
  | [], _ => True
  | MEvent.storeTx h :: es, s => h ∉ s ∧ noRestoreSince es (insert h s)
  | MEvent.clearSeen :: es, _ => noRestoreSince es ∅
  | MEvent.fetch _ :: es, s => noRestoreSince es s

/-- A pending-hash delivery trace in which every hash resolves to the same
fetched transaction. -/
def mkTrace (l : List Nat) (f : FetchedTx) : List (Nat × Option FetchedTx) :=
  l.map (fun k => (k, some f))

theorem countStore_nil (h : Nat) : countStore h [] = 0 := rfl

theorem countStore_append (h : Nat) (e1 e2 : List MEvent) :
    countStore h (e1 ++ e2) = countStore h e1 + countStore h e2 :=
  List.countP_append _ _ _

theorem countStore_cons (h : Nat) (e : MEvent) (es : List MEvent) :
    countStore h (e :: es) = countStore h es + (if e = MEvent.storeTx h then 1 else 0) := by
  simp [countStore, List.countP_cons]

/-- C6 (amended): a hash already present in the dedup set is rejected without
a fetch or any cache write, and no hash is enriched and stored twice unless a
wholesale clear of the dedup set happened between the two stores. -/
theorem dedup_at_most_once_between_clears :
    (∀ (st : ListenerState) (h : Nat) (f : Option FetchedTx),
      h ∈ st.seen → handlePendingTransaction st h f = (st, [])) ∧
    (∀ (st : ListenerState) (trace : List (Nat × Option FetchedTx)),
      noRestoreSince ((runListener st trace).2) ∅) := by
  constructor
  · intro st h f hm
    simp [handlePendingTransaction, hm]
  · have aux : ∀ (trace : List (Nat × Option FetchedTx)) (st : ListenerState) (s : Finset Nat),
        s ⊆ st.seen → noRestoreSince ((runListener st trace).2) s := by
      intro trace
      induction trace with
      | nil => intro st s _; simp [runListener, noRestoreSince]
      | cons p rest ih =>
        rcases p with ⟨h, f⟩
        intro st s hsub
        by_cases hm : h ∈ st.seen
        · have hstep : handlePendingTransaction st h f = (st, []) := by
            simp [handlePendingTransaction, hm]
          simp only [runListener, hstep, List.nil_append]
          exact ih st s hsub
        · rcases f with _ | ftx
          · have hstep : handlePendingTransaction st h none = (st, [MEvent.fetch h]) := by
              simp [handlePendingTransaction, hm]
            simp only [runListener, hstep, List.cons_append, List.nil_append]
            simp only [noRestoreSince]
            exact ih st s hsub
          · by_cases hc : 10000 < (insert h st.seen).card
            all_goals rw [Finset.card_insert_of_not_mem hm] at hc
            · have hstep : handlePendingTransaction st h (some ftx) =
                  ({ seen := ∅, cache := storeTransaction st.cache (enrichTransaction h ftx) },
                   [MEvent.fetch h, MEvent.storeTx h, MEvent.clearSeen]) := by
                simp [handlePendingTransaction, hm, hc]
              simp only [runListener, hstep, List.cons_append, List.nil_append]
              simp only [noRestoreSince]
              exact ⟨fun hin => hm (hsub hin), ih _ ∅ (Finset.empty_subset _)⟩
            · have hstep : handlePendingTransaction st h (some ftx) =
                  ({ seen := insert h st.seen
                     cache := storeTransaction st.cache (enrichTransaction h ftx) },
                   [MEvent.fetch h, MEvent.storeTx h]) := by
                simp [handlePendingTransaction, hm, hc]
              simp only [runListener, hstep, List.cons_append, List.nil_append]
              simp only [noRestoreSince]
              exact ⟨fun hin => hm (hsub hin),
                ih _ (insert h s) (Finset.insert_subset_insert h hsub)⟩
    intro st trace
    exact aux trace st ∅ (Finset.empty_subset _)

/-- Witness for C6 (amended): a hash already in the dedup set is dropped with
no fetch and no state change. -/
theorem dedup_at_most_once_between_clears_witness :
    handlePendingTransaction { seen := {5}, cache := [] } 5 none =
      ({ seen := {5}, cache := [] }, []) :=
  dedup_at_most_once_between_clears.1 _ 5 none (Finset.mem_singleton_self 5)

theorem runListener_append (st : ListenerState) (t1 t2 : List (Nat × Option FetchedTx)) :
    runListener st (t1 ++ t2) =
      ((runListener (runListener st t1).1 t2).1,
        (runListener st t1).2 ++ (runListener (runListener st t1).1 t2).2) := by
  induction t1 generalizing st with
  | nil => simp [runListener]
  | cons p rest ih =>
    rcases p with ⟨h, f⟩
    simp only [List.cons_append, runListener, List.append_eq]
    rw [ih]
    simp [List.append_assoc]

theorem runListener_fresh (f : FetchedTx) :
    ∀ (l : List Nat) (s : Finset Nat) (c : CacheState),
      l.Nodup → (∀ x ∈ l, x ∉ s) → s.card + l.length ≤ 10000 →
      ((runListener ⟨s, c⟩ (mkTrace l f)).1).seen = s ∪ l.toFinset ∧
      ∀ h, countStore h ((runListener ⟨s, c⟩ (mkTrace l f)).2) =
        if h ∈ l then 1 else 0 := by
  intro l
  induction l with
  | nil =>
    intro s c _ _ _
    constructor
    · simp [runListener, mkTrace]
    · intro h; simp [runListener, mkTrace, countStore]
  | cons k rest ih =>
    intro s c hnd hfresh hcard
    have hk : k ∉ s := hfresh k (List.mem_cons_self k rest)
    have hcard1 : (insert k s).card = s.card + 1 := Finset.card_insert_of_not_mem hk
    have hlen : s.card + (k :: rest).length = s.card + rest.length + 1 := by
      simp [List.length_cons]; omega
    have hnotc : ¬ 10000 < (insert k s).card := by
      rw [hcard1]; omega
    have hstep : handlePendingTransaction ⟨s, c⟩ k (some f) =
        (⟨insert k s, storeTransaction c (enrichTransaction k f)⟩,
         [MEvent.fetch k, MEvent.storeTx k]) := by
      have hk' : k ∉ (ListenerState.mk s c).seen := hk
      rw [Finset.card_insert_of_not_mem hk] at hnotc
      simp [handlePendingTransaction, hk', hnotc]
    have ihres := ih (insert k s) (storeTransaction c (enrichTransaction k f))
      (List.Nodup.of_cons hnd)
      (fun x hx hmem => by
        rcases Finset.mem_insert.mp hmem with h1 | h1
        · exact (List.nodup_cons.mp hnd).1 (h1 ▸ hx)
        · exact hfresh x (List.mem_cons_of_mem k hx) h1)
      (by rw [hcard1]; omega)
    have hmk : mkTrace (k :: rest) f = (k, some f) :: mkTrace rest f := rfl
    constructor
    · rw [hmk]
      simp only [runListener, hstep]
      rw [ihres.1]
      simp [List.toFinset_cons, Finset.insert_union, Finset.union_insert]
    · intro h
      rw [hmk]
      simp only [runListener, hstep, List.cons_append, List.nil_append]
      rw [countStore_cons, countStore_cons, ihres.2 h]
      by_cases hkh : h = k
      · subst hkh
        have hnin : h ∉ rest := (List.nodup_cons.mp hnd).1
        simp [hnin]
      · have hkh' : k ≠ h := fun hh => hkh hh.symm
        simp [hkh, hkh', List.mem_cons]

/-- A delivery trace of 10 001 distinct hashes (overflowing the dedup set and
triggering the wholesale clear) followed by a re-delivery of hash 0. -/
def badTrace : List (Nat × Option FetchedTx) :=
  mkTrace (List.range 10000) wFetched ++ [(10000, some wFetched), (0, some wFetched)]

/-- Counterexample to C6 as stated: on `badTrace`, hash 0 is enriched and
stored twice (the dedup set was cleared wholesale in between), so
pending-transaction hashes are not processed at most once over a whole run. -/
theorem dedup_restore_counterexample :
    countStore 0 ((runListener { seen := ∅, cache := [] } badTrace).2) = 2 ∧
    ¬ storedAtMostOnce ((runListener { seen := ∅, cache := [] } badTrace).2) := by
  have hfresh := runListener_fresh wFetched (List.range 10000) ∅ []
    (List.nodup_range 10000) (by simp) (by simp)
  have hseen : ((runListener { seen := ∅, cache := [] }
      (mkTrace (List.range 10000) wFetched)).1).seen = (List.range 10000).toFinset := by
    rw [hfresh.1]
    exact Finset.empty_union _
  have hstepA : ∀ stA : ListenerState, stA.seen = (List.range 10000).toFinset →
      (handlePendingTransaction stA 10000 (some wFetched)).2 =
        [MEvent.fetch 10000, MEvent.storeTx 10000, MEvent.clearSeen] ∧
      ((handlePendingTransaction stA 10000 (some wFetched)).1).seen = ∅ := by
    intro stA hA
    have hnm : 10000 ∉ stA.seen := by
      rw [hA]; simp [List.mem_toFinset, List.mem_range]
    have hcardA : stA.seen.card = 10000 := by
      rw [hA, List.toFinset_card_of_nodup (List.nodup_range 10000), List.length_range]
    have hcard : 10000 < stA.seen.card + 1 := by omega
    constructor <;> simp [handlePendingTransaction, hnm, hcard]
  have hstepB : ∀ stB : ListenerState, stB.seen = ∅ →
      (handlePendingTransaction stB 0 (some wFetched)).2 =
        [MEvent.fetch 0, MEvent.storeTx 0] := by
    intro stB hB
    have hnm : (0 : Nat) ∉ stB.seen := by rw [hB]; simp
    have hcardB : stB.seen.card = 0 := by rw [hB]; simp
    have hcard : ¬ 10000 < stB.seen.card + 1 := by omega
    simp [handlePendingTransaction, hnm, hcard]
  have hbad : badTrace =
      mkTrace (List.range 10000) wFetched ++ [(10000, some wFetched), (0, some wFetched)] := rfl
  have htail : ∀ stT : ListenerState, stT.seen = (List.range 10000).toFinset →
      (runListener stT [(10000, some wFetched), (0, some wFetched)]).2 =
        [MEvent.fetch 10000, MEvent.storeTx 10000, MEvent.clearSeen] ++
          ([MEvent.fetch 0, MEvent.storeTx 0] ++ []) := by
    intro stT hT
    obtain ⟨hA2, hA1⟩ := hstepA stT hT
    have hB2 := hstepB _ hA1
    simp only [runListener]
    rw [hA2, hB2]
  have hevents : (runListener { seen := ∅, cache := [] } badTrace).2 =
      (runListener { seen := ∅, cache := [] } (mkTrace (List.range 10000) wFetched)).2 ++
        ([MEvent.fetch 10000, MEvent.storeTx 10000, MEvent.clearSeen] ++
          ([MEvent.fetch 0, MEvent.storeTx 0] ++ [])) := by
    rw [hbad, runListener_append, htail _ hseen]
  have hcount : countStore 0 ((runListener { seen := ∅, cache := [] } badTrace).2) = 2 := by
    rw [hevents, countStore_append, countStore_append, countStore_append, hfresh.2 0,
      if_pos (by simp [List.mem_range])]
    simp [countStore_cons, countStore_nil]
  refine ⟨hcount, fun hsm => ?_⟩
  have h0 := hsm 0
  rw [hcount] at h0
  omega

end MevBot
